import Mathlib

/-!
Verification of the docker-lb load balancer core against its specification.

The Go source is shallowly embedded:
* `Backend`, `BackendPool`, `AffinityMap`, `DNSResolver` mirror the structs of
  `backend.go`, `stats.go` and `dns_resolver.go`; Go maps become association
  lists, pointers into the pool become lookups keyed by IP, and `time.Time`
  becomes a `Nat` instant passed explicitly.
* `rand.IntN` is modelled by an oracle `rng : Nat → Nat`; theorems that depend
  on the drawn value carry the range hypothesis the Go runtime guarantees.
* The selectors of `selector.go`, the TCP `forward` of `tcp.go` and the HTTP
  handler of `http.go` become pure functions; the I/O outcomes that `forward`
  branches on (dial success, PROXY header write success) are boolean oracles.
-/

set_option autoImplicit false

namespace DockerLB

/-- Association-list lookup keyed by `String`, mirroring Go map indexing. -/
def alookup {β : Type} : List (String × β) → String → Option β
  | [], _ => none
  | p :: rest, k => if p.1 = k then some p.2 else alookup rest k

/-- Association-list in-place update, mirroring mutation through a Go map
pointer: every entry whose key matches is rewritten by `f`. -/
def aupdate {β : Type} (l : List (String × β)) (k : String) (f : β → β) :
    List (String × β) :=
  l.map (fun p => if p.1 = k then (p.1, f p.2) else p)

theorem alookup_append {β : Type} (l m : List (String × β)) (k : String) :
    alookup (l ++ m) k =
      match alookup l k with
      | some v => some v
      | none => alookup m k := by
  induction l with
  | nil => simp [alookup]
  | cons p rest ih =>
    by_cases h : p.1 = k <;> simp [alookup, h, ih]

theorem alookup_aupdate {β : Type} (l : List (String × β)) (k x : String)
    (f : β → β) :
    alookup (aupdate l k f) x =
      if x = k then (alookup l k).map f else alookup l x := by
  induction l with
  | nil => simp [alookup, aupdate]
  | cons p rest ih =>
    simp only [aupdate, List.map_cons] at ih ⊢
    by_cases hpk : p.1 = k
    · subst hpk
      by_cases hx : p.1 = x
      · subst hx
        simp [alookup, ih]
      · have hxk : ¬ x = p.1 := fun h => hx h.symm
        simp [alookup, hx, hxk, ih]
    · by_cases hpx : p.1 = x
      · subst hpx
        simp [alookup, hpk, ih, fun h => hpk (h : p.1 = k)]
      · simp [alookup, hpk, hpx, ih]

theorem aupdate_keys {β : Type} (l : List (String × β)) (k : String)
    (f : β → β) : (aupdate l k f).map Prod.fst = l.map Prod.fst := by
  induction l with
  | nil => rfl
  | cons p rest ih =>
    by_cases h : p.1 = k <;> simp [aupdate, h] at ih ⊢ <;> exact ih

theorem alookup_eq_none_iff {β : Type} (l : List (String × β)) (k : String) :
    alookup l k = none ↔ k ∉ l.map Prod.fst := by
  induction l with
  | nil => simp [alookup]
  | cons p rest ih =>
    by_cases h : p.1 = k
    · simp [alookup, h]
    · simp only [alookup, if_neg h, List.map_cons, List.mem_cons]
      rw [ih]
      constructor
      · intro hk hor
        rcases hor with h1 | h2
        · exact h h1.symm
        · exact hk h2
      · intro hk hm
        exact hk (Or.inr hm)

theorem alookup_mem {β : Type} (l : List (String × β)) (k : String) (v : β)
    (h : alookup l k = some v) : (k, v) ∈ l := by
  induction l with
  | nil => simp [alookup] at h
  | cons p rest ih =>
    by_cases hpk : p.1 = k
    · simp only [alookup, if_pos hpk] at h
      obtain ⟨kp, vp⟩ := p
      simp only at hpk
      subst hpk
      injection h with h2
      subst h2
      exact List.mem_cons_self _ _
    · simp only [alookup, if_neg hpk] at h
      exact List.mem_cons_of_mem _ (ih h)

theorem aupdate_of_not_mem {β : Type} (l : List (String × β)) (k : String)
    (f : β → β) (h : alookup l k = none) : aupdate l k f = l := by
  induction l with
  | nil => rfl
  | cons p rest ih =>
    by_cases hpk : p.1 = k
    · simp [alookup, hpk] at h
    · simp only [alookup, if_neg hpk] at h
      simp [aupdate, hpk] at ih ⊢
      exact ih h

theorem alookup_filter_of_false {β : Type} (l : List (String × β))
    (pred : String × β → Bool) (k : String) (v : β)
    (hl : alookup l k = some v) (hnd : (l.map Prod.fst).Nodup)
    (hp : pred (k, v) = false) :
    alookup (l.filter pred) k = none := by
  induction l with
  | nil => simp [alookup] at hl
  | cons p rest ih =>
    simp only [List.map_cons, List.nodup_cons] at hnd
    rw [List.filter_cons]
    by_cases hpk : p.1 = k
    · obtain ⟨kp, vp⟩ := p
      simp only at hpk
      subst hpk
      simp only [alookup, if_pos rfl] at hl
      injection hl with hl2
      subst hl2
      simp only [hp, Bool.false_eq_true, if_false]
      rw [alookup_eq_none_iff]
      intro hmem
      rcases List.mem_map.mp hmem with ⟨q, hq, hqk⟩
      exact hnd.1 (List.mem_map.mpr ⟨q, List.mem_of_mem_filter hq, hqk⟩)
    · simp only [alookup, if_neg hpk] at hl
      have hrest := ih hl hnd.2
      by_cases hpred : pred p = true
      · simp only [hpred, if_true, alookup, if_neg hpk]
        exact hrest
      · simp only [hpred, if_false]
        exact hrest

/-! ## Backend and BackendPool (`backend.go`) -/

/-- One upstream instance, mirroring `Backend` of `backend.go`. Counters use
unbounded `Int`/`Nat`; overflow of the 64-bit Go counters is immaterial to the
claims checked here. -/
structure Backend where
  ip : String
  port : String
  weight : Int
  activeConns : Int
  totalConns : Nat
  totalBytes : Nat
  lastSeen : Nat
deriving DecidableEq, Repr

/-- Placeholder backend used only to make Go's in-bounds slice indexing total;
every theorem works under the bounds Go guarantees. -/
def dummyBackend : Backend :=
  { ip := "", port := "", weight := 0, activeConns := 0, totalConns := 0,
    totalBytes := 0, lastSeen := 0 }

/-- The pool of backends for one logical host+port, mirroring `BackendPool`.
`backends` is the IP-keyed map; `backendList` keeps the snapshot order as the
list of IP keys (the Go field holds pointers into the map). The round-robin
cursor is a `uint64`, kept below `2 ^ 64` by wrapping addition. -/
structure BackendPool where
  host : String
  port : String
  backends : List (String × Backend)
  backendList : List String
  roundRobinIndex : Nat
deriving DecidableEq, Repr

/-- `GetBackend`: O(1) lookup by IP. -/
def BackendPool.getBackend (p : BackendPool) (ip : String) : Option Backend :=
  alookup p.backends ip

/-- `GetBackends`: the snapshot of all backends, resolving the stored pointers. -/
def BackendPool.getBackends (p : BackendPool) : List Backend :=
  p.backendList.filterMap (fun ip => alookup p.backends ip)

/-- The counter bump `OnConnect` performs on the designated backend. -/
def connectBump (b : Backend) : Backend :=
  { b with activeConns := b.activeConns + 1, totalConns := b.totalConns + 1 }

/-- `OnConnect`: `active_conns += 1` and `total_conns += 1` on the backend the
pointer designates, here keyed by its IP. -/
def BackendPool.onConnect (p : BackendPool) (ip : String) : BackendPool :=
  { p with backends := aupdate p.backends ip connectBump }

/-- `OnDisconnect`: `active_conns -= 1`. -/
def BackendPool.onDisconnect (p : BackendPool) (ip : String) : BackendPool :=
  { p with backends := aupdate p.backends ip (fun b => { b with activeConns := b.activeConns - 1 }) }

/-- `AddBytes`: `total_bytes += n`. -/
def BackendPool.addBytes (p : BackendPool) (ip : String) (n : Nat) : BackendPool :=
  { p with backends := aupdate p.backends ip (fun b => { b with totalBytes := b.totalBytes + n }) }

/-- `GetRoundRobinIndex`: atomic fetch-add-1 on the `uint64` cursor, returning
the post-increment value together with the updated pool. -/
def BackendPool.getRoundRobinIndex (p : BackendPool) : Nat × BackendPool :=
  let v := (p.roundRobinIndex + 1) % 2 ^ 64
  (v, { p with roundRobinIndex := v })

/-- `checkIp`: membership of an IP in the pool map. -/
def BackendPool.checkIp (p : BackendPool) (ip : String) : Bool :=
  (alookup p.backends ip).isSome

/-- The fresh backend `OnDNSUpdate` inserts for a newly discovered IP. -/
def freshBackend (ip port : String) (now : Nat) : Backend :=
  { ip := ip, port := port, weight := 1, activeConns := 0, totalConns := 0,
    totalBytes := 0, lastSeen := now }

/-- One iteration of `OnDNSUpdate`'s first loop: refresh `last_seen` of a known
IP, or insert a fresh backend and count the change. -/
def upsertStep (port : String) (now : Nat)
    (acc : List (String × Backend) × Nat) (ip : String) :
    List (String × Backend) × Nat :=
  match alookup acc.1 ip with
  | some _ => (aupdate acc.1 ip (fun b => { b with lastSeen := now }), acc.2)
  | none => (acc.1 ++ [(ip, freshBackend ip port now)], acc.2 + 1)

/-- `OnDNSUpdate`: diff the incoming IP list against the members, refresh or
insert, drop members absent from the list, and rebuild the snapshot list only
when the membership changed. -/
def BackendPool.onDNSUpdate (p : BackendPool) (ips : List String) (now : Nat) :
    BackendPool :=
  let r := ips.foldl (upsertStep p.port now) (p.backends, 0)
  let kept := r.1.filter (fun q => decide (q.1 ∈ ips))
  let removed := (r.1.filter (fun q => decide (q.1 ∉ ips))).length
  let changed := r.2 + removed
  if changed ≠ 0 then
    { p with backends := kept, backendList := kept.map Prod.fst }
  else
    { p with backends := kept }

/-- Pool well-formedness: the snapshot list is exactly the key list of the map,
keys are distinct, and every stored backend carries its key as `ip` and the
pool's backend port. These hold for every pool built by `OnDNSUpdate`. -/
def BackendPool.WF (p : BackendPool) : Prop :=
  p.backendList = p.backends.map Prod.fst ∧
  (p.backends.map Prod.fst).Nodup ∧
  ∀ q ∈ p.backends, q.2.ip = q.1 ∧ q.2.port = p.port

instance (p : BackendPool) : Decidable p.WF := by
  unfold BackendPool.WF
  infer_instance

/-! ## AffinityMap (`stats.go`) -/

/-- An IP affinity binding, mirroring `AffinityEntry`. -/
structure AffinityEntry where
  backendIP : String
  lastUsed : Nat
deriving DecidableEq, Repr

/-- Source-IP → backend-IP bindings with a TTL, mirroring `AffinityMap`. -/
structure AffinityMap where
  entries : List (String × AffinityEntry)
  ttl : Nat
  host : String
deriving DecidableEq, Repr

/-- `Get`: a lookup that lazily treats an entry older than the TTL as a miss. -/
def AffinityMap.get (am : AffinityMap) (now : Nat) (sourceIP : String) :
    Option String :=
  match alookup am.entries sourceIP with
  | none => none
  | some e => if now - e.lastUsed > am.ttl then none else some e.backendIP

/-- `Set`: update the entry in place when present, otherwise create one. -/
def AffinityMap.set (am : AffinityMap) (now : Nat) (sourceIP backendIP : String) :
    AffinityMap :=
  let e : AffinityEntry := { backendIP := backendIP, lastUsed := now }
  match alookup am.entries sourceIP with
  | some _ => { am with entries := aupdate am.entries sourceIP (fun _ => e) }
  | none => { am with entries := am.entries ++ [(sourceIP, e)] }

/-- `Touch`: refresh `last_used` of an existing entry; a missing source IP is
left alone. -/
def AffinityMap.touch (am : AffinityMap) (now : Nat) (sourceIP : String) :
    AffinityMap :=
  { am with entries := aupdate am.entries sourceIP (fun e => { e with lastUsed := now }) }

/-- One pass of the background `cleanup` sweeper: drop every entry strictly
older than the TTL. -/
def AffinityMap.sweep (am : AffinityMap) (now : Nat) : AffinityMap :=
  { am with entries := am.entries.filter (fun q => decide (¬ now - q.2.lastUsed > am.ttl)) }

/-- `Size`: number of live entries. -/
def AffinityMap.size (am : AffinityMap) : Nat :=
  am.entries.length

/-! ## Selectors (`selector.go`)

Each `Select` method begins with the same affinity block and ends with the
same affinity-recording block; they are factored out verbatim. `rand.IntN` is
the oracle `rng`. -/

/-- The affinity check that opens every `Select`: with affinity configured and
a non-empty source IP, an unexpired binding whose backend IP is still a pool
member short-circuits the algorithm. -/
def selectorAffinityCheck (pool : BackendPool) (affinity : Option AffinityMap)
    (now : Nat) (sourceIP : String) : Option Backend :=
  match affinity with
  | none => none
  | some am =>
    if sourceIP ≠ "" then
      match am.get now sourceIP with
      | some backendIP => pool.getBackend backendIP
      | none => none
    else none

/-- The affinity update that closes every `Select`: record the chosen backend
when affinity is configured and the source IP is non-empty. -/
def recordAffinity (affinity : Option AffinityMap) (now : Nat)
    (sourceIP : String) (selected : Backend) : Option AffinityMap :=
  match affinity with
  | none => none
  | some am =>
    if sourceIP ≠ "" then some (am.set now sourceIP selected.ip) else some am

/-- `RandomSelector.Select`: uniform random over the snapshot. -/
def RandomSelector.select (rng : Nat → Nat) (pool : BackendPool)
    (sourceIP : String) (affinity : Option AffinityMap) (now : Nat) :
    Except String (Backend × Option AffinityMap) :=
  match selectorAffinityCheck pool affinity now sourceIP with
  | some backend => .ok (backend, affinity)
  | none =>
    let backends := pool.getBackends
    if backends.length = 0 then
      .error "no backends available"
    else
      let selected := backends.getD (rng backends.length) dummyBackend
      .ok (selected, recordAffinity affinity now sourceIP selected)

/-- `RoundRobinSelector.Select`: the pool-global cursor modulo the snapshot
length; returns the updated pool because the cursor lives in the pool. -/
def RoundRobinSelector.select (pool : BackendPool) (sourceIP : String)
    (affinity : Option AffinityMap) (now : Nat) :
    Except String (Backend × BackendPool × Option AffinityMap) :=
  match selectorAffinityCheck pool affinity now sourceIP with
  | some backend => .ok (backend, pool, affinity)
  | none =>
    let backends := pool.getBackends
    if backends.length = 0 then
      .error "no backends available"
    else
      let r := pool.getRoundRobinIndex
      let idx := r.1 % backends.length
      let selected := backends.getD idx dummyBackend
      .ok (selected, r.2, recordAffinity affinity now sourceIP selected)

/-- The fold of `LeastConnectionSelector.Select`'s first pass, starting from
`max int64`. -/
def minConnsOf (backends : List Backend) : Int :=
  backends.foldl (fun m b => if b.activeConns < m then b.activeConns else m) (2 ^ 63 - 1)

/-- The second pass of `LeastConnectionSelector.Select`: all backends whose
active connection count equals the minimum. -/
def candidatesOf (backends : List Backend) : List Backend :=
  backends.filter (fun b => decide (b.activeConns = minConnsOf backends))

/-- `LeastConnectionSelector.Select`: uniform random among the backends with
the minimum active connection count. -/
def LeastConnectionSelector.select (rng : Nat → Nat) (pool : BackendPool)
    (sourceIP : String) (affinity : Option AffinityMap) (now : Nat) :
    Except String (Backend × Option AffinityMap) :=
  match selectorAffinityCheck pool affinity now sourceIP with
  | some backend => .ok (backend, affinity)
  | none =>
    let backends := pool.getBackends
    if backends.length = 0 then
      .error "no backends available"
    else
      let candidates := candidatesOf backends
      let selected := candidates.getD (rng candidates.length) dummyBackend
      .ok (selected, recordAffinity affinity now sourceIP selected)

/-- The fold of `WeightedRandomSelector.Select` computing `maxConns`. -/
def maxConnsOf (backends : List Backend) : Int :=
  backends.foldl (fun m b => if b.activeConns > m then b.activeConns else m) 0

/-- The per-backend implicit weights `(maxConns − activeConns + 1) × weight`. -/
def implicitWeightsOf (backends : List Backend) : List Int :=
  backends.map (fun b => (maxConnsOf backends - b.activeConns + 1) * b.weight)

/-- The per-backend explicit weights, read off the `weight` field. -/
def explicitWeightsOf (backends : List Backend) : List Int :=
  backends.map (fun b => b.weight)

/-- `totalWeight` as the Go loop accumulates it. -/
def totalWeightOf (weights : List Int) : Int :=
  weights.foldl (· + ·) 0

/-- The linear scan `r -= w; if r < 0 break`, returning the index it stops at. -/
def pickIdx : List Int → Int → Option Nat
  | [], _ => none
  | w :: ws, r => if r - w < 0 then some 0 else (pickIdx ws (r - w)).map (· + 1)

/-- The weighted-random draw and scan: `r := rand.IntN(totalWeight)`, the
linear scan, and the last-element fallback when the scan runs off the end. -/
def wrScanPick (backends : List Backend) (weights : List Int)
    (rng : Nat → Nat) : Backend :=
  let r : Int := (rng (totalWeightOf weights).toNat : Nat)
  match pickIdx weights r with
  | some i => backends.getD i dummyBackend
  | none => backends.getD (backends.length - 1) dummyBackend

/-- `WeightedRandomSelector.Select`: weighted random over implicit or explicit
weights, with uniform fallback when the total weight is zero and last-element
fallback when the scan runs off the end. -/
def WeightedRandomSelector.select (useExplicitWeights : Bool) (rng : Nat → Nat)
    (pool : BackendPool) (sourceIP : String) (affinity : Option AffinityMap)
    (now : Nat) : Except String (Backend × Option AffinityMap) :=
  match selectorAffinityCheck pool affinity now sourceIP with
  | some backend => .ok (backend, affinity)
  | none =>
    let backends := pool.getBackends
    if backends.length = 0 then
      .error "no backends available"
    else
      let weights :=
        if useExplicitWeights then explicitWeightsOf backends
        else implicitWeightsOf backends
      if totalWeightOf weights = 0 then
        let selected := backends.getD (rng backends.length) dummyBackend
        .ok (selected, recordAffinity affinity now sourceIP selected)
      else
        let selected := wrScanPick backends weights rng
        .ok (selected, recordAffinity affinity now sourceIP selected)

/-! ## DNS resolver (`dns_resolver.go`) -/

/-- Per-host resolver state, mirroring `DNSResolver`. The subscribers are the
backend pools registered through `Subscribe` (the only `DNSSubscriber`
implementation). -/
structure DNSResolver where
  host : String
  ips : List String
  subscribers : List BackendPool
  probePeriod : Nat
deriving DecidableEq, Repr

/-- `updateIPs`: store the new list and report a change when the length
differs or some new IP is absent from the stored list. -/
def DNSResolver.updateIPs (r : DNSResolver) (newIPs : List String) :
    Bool × DNSResolver :=
  if r.ips.length ≠ newIPs.length then
    (true, { r with ips := newIPs })
  else if newIPs.any (fun ip => decide (ip ∉ r.ips)) then
    (true, { r with ips := newIPs })
  else
    (false, r)

/-- `notifySubscribers`: push the full new IP list to every subscriber. -/
def DNSResolver.notifySubscribers (r : DNSResolver) (ips : List String)
    (now : Nat) : DNSResolver :=
  { r with subscribers := r.subscribers.map (fun p => p.onDNSUpdate ips now) }

/-- One round of the `start` loop: a failed lookup is skipped; a successful
one is diffed and, when changed, published. The second component is the
published list, `none` when no notification went out. -/
def DNSResolver.probeRound (r : DNSResolver) (lookupResult : Option (List String))
    (now : Nat) : DNSResolver × Option (List String) :=
  match lookupResult with
  | none => (r, none)
  | some newIPs =>
    let u := r.updateIPs newIPs
    if u.1 then (u.2.notifySubscribers newIPs now, some newIPs)
    else (u.2, none)

/-! ## TCP forwarder (`tcp.go`) and HTTP handler (`http.go`) -/

/-- PROXY protocol configuration, mirroring `ProxyProtocolConfig`. -/
structure ProxyProtocolConfig where
  serverEnabled : Bool
  serverVersion : Nat
  clientEnabled : Bool
  clientVersion : Nat
deriving DecidableEq, Repr

/-- The deferred `affinity.Touch(sourceIP)` registered by `forward` and the
HTTP handler. -/
def touchOnExit (affinity : Option AffinityMap) (sourceIP : String)
    (now : Nat) : Option AffinityMap :=
  match affinity with
  | none => none
  | some am => if sourceIP ≠ "" then some (am.touch now sourceIP) else some am

/-- How one call of `forward` exits. -/
inductive ForwardExit where
  | selectFailed
  | dialFailed (backend : Backend)
  | proxyWriteFailed (backend : Backend)
  | completed (backend : Backend) (sent received : Nat)
deriving DecidableEq, Repr

/-- `forward` of `tcp.go` as a pure transition. The selector is passed as a
function (Go's `BackendSelector` interface); `dialOk` and `proxyWriteOk` are
oracles for the two fallible I/O steps, and `sent`/`received` are the byte
counts the two copy goroutines end with. The result carries the exit path,
the pool after all deferred counter updates, and the affinity map after the
deferred `Touch`. -/
def forward
    (sel : BackendPool → String → Option AffinityMap →
      Except String (Backend × BackendPool × Option AffinityMap))
    (pool : BackendPool) (sourceIP : String) (affinity : Option AffinityMap)
    (proxyConfig : ProxyProtocolConfig) (dialOk proxyWriteOk : Bool)
    (sent received : Nat) (endNow : Nat) :
    ForwardExit × BackendPool × Option AffinityMap :=
  match sel pool sourceIP affinity with
  | .error _ => (.selectFailed, pool, affinity)
  | .ok (backend, p1, aff1) =>
    let p2 := p1.onConnect backend.ip
    if dialOk = false then
      (.dialFailed backend, p2.onDisconnect backend.ip, touchOnExit aff1 sourceIP endNow)
    else if proxyConfig.clientEnabled = true ∧ proxyWriteOk = false then
      (.proxyWriteFailed backend, p2.onDisconnect backend.ip, touchOnExit aff1 sourceIP endNow)
    else
      (.completed backend sent received,
        ((p2.addBytes backend.ip (sent + received)).onDisconnect backend.ip),
        touchOnExit aff1 sourceIP endNow)

/-- How one call of the HTTP handler exits. -/
inductive HttpOutcome where
  | serviceUnavailable
  | proxied (backend : Backend) (cookieValue : String)
deriving DecidableEq, Repr

/-- The backend-choice and counter-bracketing logic of
`handleRequestAndRedirect` in `http.go`: IP affinity first, then the
`proxy-affinity` cookie, then the selector; a selector failure answers
503 Service unavailable. A proxied request sets the cookie to the chosen
backend's IP and brackets the proxy call with `OnConnect`/`OnDisconnect`
and the deferred `Touch`. -/
def handleRequest
    (sel : BackendPool → String → Option AffinityMap →
      Except String (Backend × BackendPool × Option AffinityMap))
    (pool : BackendPool) (sourceIP : String) (cookie : Option String)
    (affinity : Option AffinityMap) (now endNow : Nat) :
    HttpOutcome × BackendPool × Option AffinityMap :=
  let ipBackend : Option Backend :=
    match affinity with
    | none => none
    | some am =>
      if sourceIP ≠ "" then
        match am.get now sourceIP with
        | some backendIP => pool.getBackend backendIP
        | none => none
      else none
  let stickyBackend : Option Backend :=
    match ipBackend with
    | some b => some b
    | none =>
      match cookie with
      | some v => if pool.checkIp v then pool.getBackend v else none
      | none => none
  match stickyBackend with
  | some backend =>
    (.proxied backend backend.ip,
      (pool.onConnect backend.ip).onDisconnect backend.ip,
      touchOnExit affinity sourceIP endNow)
  | none =>
    match sel pool sourceIP affinity with
    | .error _ => (.serviceUnavailable, pool, affinity)
    | .ok (backend, p1, aff1) =>
      (.proxied backend backend.ip,
        (p1.onConnect backend.ip).onDisconnect backend.ip,
        touchOnExit aff1 sourceIP endNow)

/-! ## Step lemmas for the selectors -/

theorem randomSelect_miss (rng : Nat → Nat) (pool : BackendPool)
    (src : String) (aff : Option AffinityMap) (now : Nat)
    (hmiss : selectorAffinityCheck pool aff now src = none)
    (hne : pool.getBackends ≠ []) :
    RandomSelector.select rng pool src aff now =
      Except.ok (pool.getBackends.getD (rng pool.getBackends.length) dummyBackend,
        recordAffinity aff now src
          (pool.getBackends.getD (rng pool.getBackends.length) dummyBackend)) := by
  have hlen : ¬ pool.getBackends.length = 0 := by
    simpa [List.length_eq_zero] using hne
  simp only [RandomSelector.select, hmiss, hlen, if_false]

theorem rrSelect_miss (pool : BackendPool) (src : String)
    (aff : Option AffinityMap) (now : Nat)
    (hmiss : selectorAffinityCheck pool aff now src = none)
    (hne : pool.getBackends ≠ []) :
    RoundRobinSelector.select pool src aff now =
      Except.ok
        (pool.getBackends.getD
          (((pool.roundRobinIndex + 1) % 2 ^ 64) % pool.getBackends.length)
          dummyBackend,
         { pool with roundRobinIndex := (pool.roundRobinIndex + 1) % 2 ^ 64 },
         recordAffinity aff now src
           (pool.getBackends.getD
             (((pool.roundRobinIndex + 1) % 2 ^ 64) % pool.getBackends.length)
             dummyBackend)) := by
  have hlen : ¬ pool.getBackends.length = 0 := by
    simpa [List.length_eq_zero] using hne
  simp only [RoundRobinSelector.select, hmiss, hlen, if_false,
    BackendPool.getRoundRobinIndex]

theorem lcSelect_miss (rng : Nat → Nat)
    (pool : BackendPool) (src : String) (aff : Option AffinityMap) (now : Nat)
    (hmiss : selectorAffinityCheck pool aff now src = none)
    (hne : pool.getBackends ≠ []) :
    LeastConnectionSelector.select rng pool src aff now =
      Except.ok
        (candidatesOf pool.getBackends |>.getD
          (rng (candidatesOf pool.getBackends).length) dummyBackend,
         recordAffinity aff now src
           (candidatesOf pool.getBackends |>.getD
             (rng (candidatesOf pool.getBackends).length) dummyBackend)) := by
  have hlen : ¬ pool.getBackends.length = 0 := by
    simpa [List.length_eq_zero] using hne
  simp only [LeastConnectionSelector.select, hmiss, hlen, if_false, candidatesOf]

theorem WeightedrandomSelect_miss_zero (ew : Bool) (rng : Nat → Nat)
    (pool : BackendPool) (src : String) (aff : Option AffinityMap) (now : Nat)
    (hmiss : selectorAffinityCheck pool aff now src = none)
    (hne : pool.getBackends ≠ [])
    (htw : totalWeightOf (if ew then explicitWeightsOf pool.getBackends
        else implicitWeightsOf pool.getBackends) = 0) :
    WeightedRandomSelector.select ew rng pool src aff now =
      Except.ok (pool.getBackends.getD (rng pool.getBackends.length) dummyBackend,
        recordAffinity aff now src
          (pool.getBackends.getD (rng pool.getBackends.length) dummyBackend)) := by
  have hlen : ¬ pool.getBackends.length = 0 := by
    simpa [List.length_eq_zero] using hne
  simp only [WeightedRandomSelector.select, hmiss, hlen, if_false, htw, if_true]

theorem WeightedrandomSelect_miss_pos (ew : Bool) (rng : Nat → Nat)
    (pool : BackendPool) (src : String) (aff : Option AffinityMap) (now : Nat)
    (hmiss : selectorAffinityCheck pool aff now src = none)
    (hne : pool.getBackends ≠ [])
    (htw : totalWeightOf (if ew then explicitWeightsOf pool.getBackends
        else implicitWeightsOf pool.getBackends) ≠ 0) :
    WeightedRandomSelector.select ew rng pool src aff now =
      Except.ok (wrScanPick pool.getBackends
          (if ew then explicitWeightsOf pool.getBackends
           else implicitWeightsOf pool.getBackends) rng,
        recordAffinity aff now src
          (wrScanPick pool.getBackends
            (if ew then explicitWeightsOf pool.getBackends
             else implicitWeightsOf pool.getBackends) rng)) := by
  have hlen : ¬ pool.getBackends.length = 0 := by
    simpa [List.length_eq_zero] using hne
  simp only [WeightedRandomSelector.select, hmiss, hlen, if_false, htw,
    wrScanPick]

theorem selectorAffinityCheck_of_empty (pool : BackendPool) (src : String)
    (aff : Option AffinityMap) (now : Nat) (h : pool.backends = []) :
    selectorAffinityCheck pool aff now src = none := by
  unfold selectorAffinityCheck
  cases aff with
  | none => rfl
  | some am =>
    simp only
    by_cases hs : src ≠ ""
    · rw [if_pos hs]
      cases am.get now src with
      | none => rfl
      | some bip => simp [BackendPool.getBackend, h, alookup]
    · rw [if_neg hs]

/-! ## Concrete fixtures for witnesses -/

/-- A concrete backend on IP 10.0.0.1. -/
def wb1 : Backend :=
  { ip := "10.0.0.1", port := "9000", weight := 1, activeConns := 0,
    totalConns := 0, totalBytes := 0, lastSeen := 0 }

/-- A concrete backend on IP 10.0.0.2. -/
def wb2 : Backend :=
  { ip := "10.0.0.2", port := "9000", weight := 1, activeConns := 0,
    totalConns := 0, totalBytes := 0, lastSeen := 0 }

/-- A concrete backend on IP 10.0.0.3. -/
def wb3 : Backend :=
  { ip := "10.0.0.3", port := "9000", weight := 1, activeConns := 0,
    totalConns := 0, totalBytes := 0, lastSeen := 0 }

/-- A concrete well-formed pool with three backends. -/
def pool3 : BackendPool :=
  { host := "svc", port := "9000",
    backends := [("10.0.0.1", wb1), ("10.0.0.2", wb2), ("10.0.0.3", wb3)],
    backendList := ["10.0.0.1", "10.0.0.2", "10.0.0.3"],
    roundRobinIndex := 0 }

/-- A concrete empty pool. -/
def poolEmpty : BackendPool :=
  { host := "svc", port := "9000", backends := [], backendList := [],
    roundRobinIndex := 0 }

/-- A concrete affinity map binding source 1.1.1.1 to backend 10.0.0.2. -/
def amHit : AffinityMap :=
  { entries := [("1.1.1.1", { backendIP := "10.0.0.2", lastUsed := 0 })],
    ttl := 10, host := "svc" }

/-- A concrete random oracle. -/
def rng0 : Nat → Nat := fun _ => 0

/-! ## Claims -/

/-- Claim C1: every selector obeys the two-step rule. A still-valid affinity
binding to a pool member short-circuits the algorithm and returns that backend
unchanged; otherwise the algorithm runs and, when affinity is configured and
the source IP is non-empty, the chosen backend's IP is recorded under the
source IP. -/
theorem spec_c1_selector_two_step (rng : Nat → Nat) (pool : BackendPool)
    (src : String) (affinity : Option AffinityMap) (now : Nat) :
    (∀ am bip b, affinity = some am → src ≠ "" → am.get now src = some bip →
      pool.getBackend bip = some b →
      selectorAffinityCheck pool affinity now src = some b) ∧
    (∀ b, selectorAffinityCheck pool affinity now src = some b →
      RandomSelector.select rng pool src affinity now = Except.ok (b, affinity) ∧
      RoundRobinSelector.select pool src affinity now = Except.ok (b, pool, affinity) ∧
      LeastConnectionSelector.select rng pool src affinity now = Except.ok (b, affinity) ∧
      ∀ ew, WeightedRandomSelector.select ew rng pool src affinity now =
        Except.ok (b, affinity)) ∧
    (selectorAffinityCheck pool affinity now src = none → pool.getBackends ≠ [] →
      ∀ am, affinity = some am → src ≠ "" →
      (∃ sb, RandomSelector.select rng pool src affinity now =
        Except.ok (sb, some (am.set now src sb.ip))) ∧
      (∃ sb p2, RoundRobinSelector.select pool src affinity now =
        Except.ok (sb, p2, some (am.set now src sb.ip))) ∧
      (∃ sb, LeastConnectionSelector.select rng pool src affinity now =
        Except.ok (sb, some (am.set now src sb.ip))) ∧
      (∀ ew, ∃ sb, WeightedRandomSelector.select ew rng pool src affinity now =
        Except.ok (sb, some (am.set now src sb.ip)))) := by
  refine ⟨?_, ?_, ?_⟩
  · intro am bip b haff hs hg hb
    subst haff
    simp [selectorAffinityCheck, hs, hg, hb]
  · intro b h
    refine ⟨?_, ?_, ?_, fun ew => ?_⟩ <;>
      simp only [RandomSelector.select, RoundRobinSelector.select,
        LeastConnectionSelector.select, WeightedRandomSelector.select, h]
  · intro h hne am haff hs
    have hrec : ∀ sb : Backend, recordAffinity affinity now src sb =
        some (am.set now src sb.ip) := by
      intro sb
      subst haff
      simp [recordAffinity, hs]
    refine ⟨?_, ?_, ?_, fun ew => ?_⟩
    · refine ⟨pool.getBackends.getD (rng pool.getBackends.length) dummyBackend, ?_⟩
      rw [randomSelect_miss rng pool src affinity now h hne, hrec]
    · refine ⟨pool.getBackends.getD
          (((pool.roundRobinIndex + 1) % 2 ^ 64) % pool.getBackends.length)
          dummyBackend,
        { pool with roundRobinIndex := (pool.roundRobinIndex + 1) % 2 ^ 64 }, ?_⟩
      rw [rrSelect_miss pool src affinity now h hne, hrec]
    · refine ⟨(candidatesOf pool.getBackends).getD
          (rng (candidatesOf pool.getBackends).length) dummyBackend, ?_⟩
      rw [lcSelect_miss rng pool src affinity now h hne, hrec]
    · by_cases htw : totalWeightOf (if ew then explicitWeightsOf pool.getBackends
          else implicitWeightsOf pool.getBackends) = 0
      · refine ⟨pool.getBackends.getD (rng pool.getBackends.length) dummyBackend, ?_⟩
        rw [WeightedrandomSelect_miss_zero ew rng pool src affinity now h hne htw,
          hrec]
      · refine ⟨wrScanPick pool.getBackends
            (if ew then explicitWeightsOf pool.getBackends
             else implicitWeightsOf pool.getBackends) rng, ?_⟩
        rw [WeightedrandomSelect_miss_pos ew rng pool src affinity now h hne htw,
          hrec]

/-- Witness for C1 at a concrete pool: an affinity hit for source 1.1.1.1
short-circuits to backend 10.0.0.2, and a miss for source 2.2.2.2 runs the
algorithm and records the choice. -/
theorem spec_c1_witness :
    selectorAffinityCheck pool3 (some amHit) 0 "1.1.1.1" = some wb2 ∧
    RandomSelector.select rng0 pool3 "1.1.1.1" (some amHit) 0 =
      Except.ok (wb2, some amHit) ∧
    (∃ sb, RandomSelector.select rng0 pool3 "2.2.2.2" (some amHit) 0 =
      Except.ok (sb, some (amHit.set 0 "2.2.2.2" sb.ip))) := by
  refine ⟨?_, ?_, ?_⟩
  · exact (spec_c1_selector_two_step rng0 pool3 "1.1.1.1" (some amHit) 0).1
      amHit "10.0.0.2" wb2 rfl (by decide) (by decide) (by decide)
  · exact ((spec_c1_selector_two_step rng0 pool3 "1.1.1.1" (some amHit) 0).2.1
      wb2 (by decide)).1
  · exact ((spec_c1_selector_two_step rng0 pool3 "2.2.2.2" (some amHit) 0).2.2
      (by decide) (by decide) amHit rfl (by decide)).1

/-- Claim C4: `Get` yields a hit only for an entry whose age is at most the
TTL, an older entry is reported as a miss, and a `Get` immediately after
`Set` returns the backend just recorded. -/
theorem spec_c4_affinity_ttl (am : AffinityMap) (now : Nat) (s ip : String) :
    (∀ bip, am.get now s = some bip →
      ∃ e, alookup am.entries s = some e ∧ e.backendIP = bip ∧
        now - e.lastUsed ≤ am.ttl) ∧
    (∀ e, alookup am.entries s = some e → now - e.lastUsed > am.ttl →
      am.get now s = none) ∧
    (am.set now s ip).get now s = some ip := by
  refine ⟨?_, ?_, ?_⟩
  · intro bip h
    unfold AffinityMap.get at h
    cases he : alookup am.entries s with
    | none => rw [he] at h; exact absurd h (by simp)
    | some e =>
      simp only [he] at h
      by_cases hexp : now - e.lastUsed > am.ttl
      · rw [if_pos hexp] at h
        exact absurd h (by simp)
      · rw [if_neg hexp] at h
        injection h with h2
        exact ⟨e, rfl, h2, Nat.le_of_not_lt hexp⟩
  · intro e he hexp
    simp only [AffinityMap.get, he, if_pos hexp]
  · cases he : alookup am.entries s with
    | some e0 =>
      simp only [AffinityMap.set, he, AffinityMap.get, alookup_aupdate,
        if_pos rfl, Option.map_some', Nat.sub_self]
      simp
    | none =>
      simp only [AffinityMap.set, he, AffinityMap.get, alookup_append,
        Nat.sub_self]
      simp [alookup]

/-- Witness for C4 at a concrete map: the live entry is a hit, an aged read
misses, and a set-then-get round-trips. -/
theorem spec_c4_witness :
    (∃ e, alookup amHit.entries "1.1.1.1" = some e ∧ e.backendIP = "10.0.0.2" ∧
      5 - e.lastUsed ≤ amHit.ttl) ∧
    amHit.get 100 "1.1.1.1" = none ∧
    (amHit.set 5 "3.3.3.3" "10.0.0.1").get 5 "3.3.3.3" = some "10.0.0.1" := by
  refine ⟨?_, ?_, ?_⟩
  · exact (spec_c4_affinity_ttl amHit 5 "1.1.1.1" "10.0.0.1").1 "10.0.0.2"
      (by decide)
  · exact (spec_c4_affinity_ttl amHit 100 "1.1.1.1" "10.0.0.1").2.1
      { backendIP := "10.0.0.2", lastUsed := 0 } (by decide) (by decide)
  · exact (spec_c4_affinity_ttl amHit 5 "3.3.3.3" "10.0.0.1").2.2

/-- Claim C9 counterexample: when an affinity binding short-circuits a
round-robin `Select`, the returned pool is the input pool itself — its
cursor is still 0, not incremented to 1 as the claim asserts. -/
theorem spec_c9_counterexample :
    RoundRobinSelector.select pool3 "1.1.1.1" (some amHit) 0 =
      Except.ok (wb2, pool3, some amHit) ∧
    pool3.roundRobinIndex = 0 := by
  exact ⟨rfl, rfl⟩

/-- Claim C9 as amended: a round-robin `Select` that returns through the
affinity short-circuit leaves the pool — in particular the pool-global
round-robin cursor — completely unchanged, because the early return happens
before `GetRoundRobinIndex` is called. -/
theorem spec_c9_cursor_unchanged_on_hit (pool : BackendPool) (src : String)
    (affinity : Option AffinityMap) (now : Nat) (b : Backend)
    (h : selectorAffinityCheck pool affinity now src = some b) :
    RoundRobinSelector.select pool src affinity now =
      Except.ok (b, pool, affinity) := by
  simp only [RoundRobinSelector.select, h]

/-- Witness for the amended C9 at the concrete pool. -/
theorem spec_c9_witness :
    RoundRobinSelector.select pool3 "1.1.1.1" (some amHit) 0 =
      Except.ok (wb2, pool3, some amHit) :=
  spec_c9_cursor_unchanged_on_hit pool3 "1.1.1.1" (some amHit) 0 wb2 (by decide)

/-- Claim C10: `Touch` of a source IP with no entry leaves the affinity map
completely unchanged, and in particular an entry the sweeper removed as
expired is not recreated by the `Touch` issued at connection close. -/
theorem spec_c10_touch_no_create (am : AffinityMap) (now now2 sweepNow : Nat)
    (s : String) :
    (alookup am.entries s = none → am.touch now s = am) ∧
    (∀ e, alookup am.entries s = some e → sweepNow - e.lastUsed > am.ttl →
      (am.entries.map Prod.fst).Nodup →
      (am.sweep sweepNow).touch now2 s = am.sweep sweepNow) := by
  constructor
  · intro h
    unfold AffinityMap.touch
    rw [aupdate_of_not_mem _ _ _ h]
  · intro e he hexp hnd
    have hnone : alookup (am.sweep sweepNow).entries s = none := by
      exact alookup_filter_of_false _ _ _ _ he hnd (by simp [hexp])
    unfold AffinityMap.touch
    rw [aupdate_of_not_mem _ _ _ hnone]

/-- Witness for C10: touching an absent source leaves the concrete map
unchanged, and a swept expired entry stays gone after `Touch`. -/
theorem spec_c10_witness :
    amHit.touch 3 "2.2.2.2" = amHit ∧
    (amHit.sweep 100).touch 3 "1.1.1.1" = amHit.sweep 100 := by
  constructor
  · exact (spec_c10_touch_no_create amHit 3 3 100 "2.2.2.2").1 (by decide)
  · exact (spec_c10_touch_no_create amHit 3 3 100 "1.1.1.1").2
      { backendIP := "10.0.0.2", lastUsed := 0 } (by decide) (by decide)
      (by decide)

theorem backends_eq_nil_of_getBackends_nil (pool : BackendPool)
    (hWF : pool.WF) (h : pool.getBackends = []) : pool.backends = [] := by
  rcases hWF with ⟨h1, _, _⟩
  cases hb : pool.backends with
  | nil => rfl
  | cons q rest =>
    exfalso
    unfold BackendPool.getBackends at h
    rw [h1, hb] at h
    simp [List.filterMap_cons, alookup] at h

/-- Claim C6: with an empty snapshot (and a well-formed pool), every selector
fails with the no-backends error; on that failure the TCP `forward` exits
before dialing with the pool and affinity untouched, and the HTTP handler
answers 503 Service unavailable. -/
theorem spec_c6_no_backends (pool : BackendPool) (hWF : pool.WF)
    (hempty : pool.getBackends = []) :
    (∀ rng src aff now,
      RandomSelector.select rng pool src aff now =
        Except.error "no backends available" ∧
      RoundRobinSelector.select pool src aff now =
        Except.error "no backends available" ∧
      LeastConnectionSelector.select rng pool src aff now =
        Except.error "no backends available" ∧
      ∀ ew, WeightedRandomSelector.select ew rng pool src aff now =
        Except.error "no backends available") ∧
    (∀ sel src aff cfg dOk wOk sent recvd en msg,
      sel pool src aff = Except.error msg →
      forward sel pool src aff cfg dOk wOk sent recvd en =
        (ForwardExit.selectFailed, pool, aff)) ∧
    (∀ sel src cookie aff now en msg,
      sel pool src aff = Except.error msg →
      handleRequest sel pool src cookie aff now en =
        (HttpOutcome.serviceUnavailable, pool, aff)) := by
  have hb : pool.backends = [] := backends_eq_nil_of_getBackends_nil pool hWF hempty
  refine ⟨?_, ?_, ?_⟩
  · intro rng src aff now
    have hcheck := selectorAffinityCheck_of_empty pool src aff now hb
    refine ⟨?_, ?_, ?_, fun ew => ?_⟩ <;>
      simp [RandomSelector.select, RoundRobinSelector.select,
        LeastConnectionSelector.select, WeightedRandomSelector.select,
        hcheck, hempty]
  · intro sel src aff cfg dOk wOk sent recvd en msg hsel
    simp only [forward, hsel]
  · intro sel src cookie aff now en msg hsel
    cases aff with
    | none =>
      cases cookie with
      | none => simp [handleRequest, hsel]
      | some v => simp [handleRequest, hsel, BackendPool.checkIp, hb, alookup]
    | some am =>
      rcases hg : am.get now src with _ | bip <;>
        by_cases hs : src ≠ "" <;>
          cases cookie <;>
            simp [handleRequest, hsel, hb, BackendPool.checkIp,
              BackendPool.getBackend, alookup, hg, hs]

/-- Witness for C6 at the concrete empty pool. -/
theorem spec_c6_witness :
    RandomSelector.select rng0 poolEmpty "1.1.1.1" none 0 =
      Except.error "no backends available" ∧
    forward (fun p s a => RoundRobinSelector.select p s a 0) poolEmpty
      "1.1.1.1" none
      { serverEnabled := false, serverVersion := 1,
        clientEnabled := false, clientVersion := 1 }
      true true 0 0 0 = (ForwardExit.selectFailed, poolEmpty, none) ∧
    handleRequest (fun p s a => RoundRobinSelector.select p s a 0) poolEmpty
      "1.1.1.1" none none 0 0 =
      (HttpOutcome.serviceUnavailable, poolEmpty, none) := by
  refine ⟨?_, ?_, ?_⟩
  · exact ((spec_c6_no_backends poolEmpty (by decide) (by decide)).1
      rng0 "1.1.1.1" none 0).1
  · exact (spec_c6_no_backends poolEmpty (by decide) (by decide)).2.1
      (fun p s a => RoundRobinSelector.select p s a 0) "1.1.1.1" none
      _ true true 0 0 0 "no backends available" rfl
  · exact (spec_c6_no_backends poolEmpty (by decide) (by decide)).2.2
      (fun p s a => RoundRobinSelector.select p s a 0) "1.1.1.1" none none 0 0
      "no backends available" rfl

theorem onConnect_onDisconnect_lookup (q : BackendPool) (ip : String)
    (b0 : Backend) (h : alookup q.backends ip = some b0) :
    alookup ((q.onConnect ip).onDisconnect ip).backends ip =
      some { b0 with totalConns := b0.totalConns + 1 } := by
  simp [BackendPool.onConnect, BackendPool.onDisconnect, alookup_aupdate, h,
    connectBump, Int.add_sub_cancel]

/-- Claim C7: when selection succeeds with backend `b`, every exit path of
`forward` (dial failure, PROXY write failure, completed splice) leaves `b`
with `active_conns` back at its prior value and `total_conns` bumped by
exactly one; and in general `on_connect` followed by `on_disconnect` restores
`active_conns`. -/
theorem spec_c7_forward_counters
    (sel : BackendPool → String → Option AffinityMap →
      Except String (Backend × BackendPool × Option AffinityMap))
    (pool p1 : BackendPool) (src : String) (affinity aff1 : Option AffinityMap)
    (cfg : ProxyProtocolConfig) (dOk wOk : Bool) (sent recvd en : Nat)
    (b : Backend)
    (hsel : sel pool src affinity = Except.ok (b, p1, aff1))
    (hb : alookup p1.backends b.ip = some b) :
    (∃ b2, alookup
        (forward sel pool src affinity cfg dOk wOk sent recvd en).2.1.backends
        b.ip = some b2 ∧
      b2.activeConns = b.activeConns ∧ b2.totalConns = b.totalConns + 1) ∧
    (∀ (q : BackendPool) (ip : String) (b0 : Backend),
      alookup q.backends ip = some b0 →
      ∃ b3, alookup ((q.onConnect ip).onDisconnect ip).backends ip = some b3 ∧
        b3.activeConns = b0.activeConns) := by
  constructor
  · cases dOk with
    | false =>
      simp only [forward, hsel]
      exact ⟨_, onConnect_onDisconnect_lookup p1 b.ip b hb, rfl, rfl⟩
    | true =>
      have hTF : ¬ (true = false) := by simp
      by_cases hpw : cfg.clientEnabled = true ∧ wOk = false
      · simp only [forward, hsel]
        rw [if_neg hTF, if_pos hpw]
        exact ⟨_, onConnect_onDisconnect_lookup p1 b.ip b hb, rfl, rfl⟩
      · simp only [forward, hsel]
        rw [if_neg hTF, if_neg hpw]
        refine ⟨{ b with totalConns := b.totalConns + 1, totalBytes := b.totalBytes + (sent + recvd) }, ?_, rfl, rfl⟩
        simp [BackendPool.onConnect, BackendPool.addBytes,
          BackendPool.onDisconnect, alookup_aupdate, hb, connectBump,
          Int.add_sub_cancel]
  · intro q ip b0 h
    exact ⟨_, onConnect_onDisconnect_lookup q ip b0 h, rfl⟩

/-- The pool `pool3` after one round-robin cursor bump. -/
def pool3rr : BackendPool :=
  { pool3 with roundRobinIndex := 1 }

/-- The PROXY-disabled configuration used by witnesses. -/
def cfg0 : ProxyProtocolConfig :=
  { serverEnabled := false, serverVersion := 1, clientEnabled := false,
    clientVersion := 1 }

/-- Witness for C7: a concrete forward through the three-backend pool returns
the selected backend's counters with `active_conns` unchanged and
`total_conns` bumped. -/
theorem spec_c7_witness :
    (∃ b2, alookup
        (forward (fun p s a => RoundRobinSelector.select p s a 0) pool3
          "" none cfg0 true true 7 5 0).2.1.backends
        wb2.ip = some b2 ∧
      b2.activeConns = wb2.activeConns ∧ b2.totalConns = wb2.totalConns + 1) ∧
    (∃ b3, alookup ((pool3.onConnect "10.0.0.1").onDisconnect
        "10.0.0.1").backends "10.0.0.1" = some b3 ∧
      b3.activeConns = wb1.activeConns) := by
  constructor
  · exact (spec_c7_forward_counters
      (fun p s a => RoundRobinSelector.select p s a 0)
      pool3 pool3rr "" none none cfg0 true true 7 5 0 wb2 rfl (by decide)).1
  · exact (spec_c7_forward_counters
      (fun p s a => RoundRobinSelector.select p s a 0)
      pool3 pool3rr "" none none cfg0 true true 7 5 0 wb2 rfl (by decide)).2
      pool3 "10.0.0.1" wb1 (by decide)

/-! ## Characterizing `OnDNSUpdate` -/

/-- What `OnDNSUpdate` stores for an IP in the incoming set: the previous
backend with `last_seen` refreshed, or a fresh backend. -/
def refreshedOrFresh (port : String) (now : Nat) (prev : Option Backend)
    (x : String) : Backend :=
  match prev with
  | some b => { b with lastSeen := now }
  | none => freshBackend x port now

theorem upsertStep_lookup (port : String) (now : Nat)
    (bs : List (String × Backend)) (c : Nat) (ip x : String) :
    alookup (upsertStep port now (bs, c) ip).1 x =
      if x = ip then some (refreshedOrFresh port now (alookup bs ip) ip)
      else alookup bs x := by
  unfold upsertStep
  cases h : alookup bs ip with
  | some b0 =>
    simp only [h, alookup_aupdate, refreshedOrFresh]
    by_cases hx : x = ip <;> simp [hx, h]
  | none =>
    simp only [h, alookup_append, refreshedOrFresh]
    by_cases hx : x = ip
    · subst hx
      simp [h, alookup]
    · have hxi : ¬ ip = x := fun hh => hx hh.symm
      cases hbx : alookup bs x <;> simp [hbx, alookup, hxi, hx]

theorem refreshedOrFresh_idem (port : String) (now : Nat) (o : Option Backend)
    (ip : String) :
    refreshedOrFresh port now (some (refreshedOrFresh port now o ip)) ip =
      refreshedOrFresh port now o ip := by
  cases o <;> rfl

theorem upsertAll_lookup (port : String) (now : Nat) :
    ∀ (ips : List String) (bs : List (String × Backend)) (c : Nat) (x : String),
    alookup (ips.foldl (upsertStep port now) (bs, c)).1 x =
      if x ∈ ips then some (refreshedOrFresh port now (alookup bs x) x)
      else alookup bs x := by
  intro ips
  induction ips with
  | nil =>
    intro bs c x
    simp
  | cons ip rest ih =>
    intro bs c x
    rw [List.foldl_cons]
    rcases hu : upsertStep port now (bs, c) ip with ⟨bs', c'⟩
    have hstep : ∀ y, alookup bs' y =
        if y = ip then some (refreshedOrFresh port now (alookup bs ip) ip)
        else alookup bs y := by
      intro y
      have hy := upsertStep_lookup port now bs c ip y
      rw [hu] at hy
      exact hy
    rw [ih bs' c' x]
    by_cases hr : x ∈ rest <;> by_cases hx : x = ip
    · subst hx
      rw [hstep x, if_pos rfl]
      simp [hr, refreshedOrFresh_idem]
    · rw [hstep x, if_neg hx]
      simp [hr, hx]
    · subst hx
      rw [if_neg hr, hstep x, if_pos rfl]
      simp
    · rw [if_neg hr, hstep x, if_neg hx]
      simp [hr, hx]

theorem upsertAll_count_le (port : String) (now : Nat) :
    ∀ (ips : List String) (bs : List (String × Backend)) (c : Nat),
    c ≤ (ips.foldl (upsertStep port now) (bs, c)).2 := by
  intro ips
  induction ips with
  | nil =>
    intro bs c
    simp
  | cons ip rest ih =>
    intro bs c
    cases h : alookup bs ip with
    | some b0 =>
      rw [List.foldl_cons]
      simp only [upsertStep, h]
      exact ih _ c
    | none =>
      rw [List.foldl_cons]
      simp only [upsertStep, h]
      have hrec := ih (bs ++ [(ip, freshBackend ip port now)]) (c + 1)
      omega

theorem upsertAll_count_eq_iff (port : String) (now : Nat) :
    ∀ (ips : List String) (bs : List (String × Backend)) (c : Nat),
    (ips.foldl (upsertStep port now) (bs, c)).2 = c ↔
      ∀ ip ∈ ips, alookup bs ip ≠ none := by
  intro ips
  induction ips with
  | nil =>
    intro bs c
    simp
  | cons ip rest ih =>
    intro bs c
    cases h : alookup bs ip with
    | some b0 =>
      rw [List.foldl_cons]
      simp only [upsertStep, h]
      rw [ih]
      constructor
      · intro hall ip' hip'
        rcases List.mem_cons.mp hip' with h1 | h2
        · subst h1
          simp [h]
        · have hthis := hall ip' h2
          rw [alookup_aupdate] at hthis
          by_cases hi : ip' = ip
          · subst hi
            simp [h]
          · rw [if_neg hi] at hthis
            exact hthis
      · intro hall ip' hip'
        rw [alookup_aupdate]
        by_cases hi : ip' = ip
        · simp [hi, h]
        · rw [if_neg hi]
          exact hall ip' (List.mem_cons_of_mem _ hip')
    | none =>
      rw [List.foldl_cons]
      simp only [upsertStep, h]
      constructor
      · intro hcount
        exfalso
        have hle := upsertAll_count_le port now rest
          (bs ++ [(ip, freshBackend ip port now)]) (c + 1)
        omega
      · intro hall
        exact absurd h (hall ip (List.mem_cons_self _ _))

theorem alookup_filter_mem (ips : List String) :
    ∀ (l : List (String × Backend)) (x : String),
    alookup (l.filter (fun q => decide (q.1 ∈ ips))) x =
      if x ∈ ips then alookup l x else none := by
  intro l
  induction l with
  | nil =>
    intro x
    by_cases hx : x ∈ ips <;> simp [alookup, hx]
  | cons q rest ih =>
    intro x
    rw [List.filter_cons]
    by_cases hq : q.1 ∈ ips
    · rw [if_pos (by simpa using hq)]
      by_cases hqx : q.1 = x
      · subst hqx
        simp [alookup, hq]
      · simp only [alookup, if_neg hqx]
        exact ih x
    · rw [if_neg (by simpa using hq)]
      rw [ih x]
      by_cases hqx : q.1 = x
      · subst hqx
        rw [if_neg hq, if_neg hq]
      · by_cases hx : x ∈ ips <;> simp [hx, alookup, hqx]

theorem onDNSUpdate_backends (p : BackendPool) (ips : List String) (now : Nat) :
    (p.onDNSUpdate ips now).backends =
      (ips.foldl (upsertStep p.port now) (p.backends, 0)).1.filter
        (fun q => decide (q.1 ∈ ips)) := by
  unfold BackendPool.onDNSUpdate
  dsimp only
  split <;> rfl

theorem onDNSUpdate_lookup (p : BackendPool) (ips : List String) (now : Nat)
    (x : String) :
    alookup (p.onDNSUpdate ips now).backends x =
      if x ∈ ips then
        some (refreshedOrFresh p.port now (alookup p.backends x) x)
      else none := by
  rw [onDNSUpdate_backends, alookup_filter_mem, upsertAll_lookup]
  by_cases hx : x ∈ ips <;> simp [hx]

theorem onDNSUpdate_backendList_mem (p : BackendPool) (ips : List String)
    (now : Nat) (hWF : p.WF) (x : String) :
    x ∈ (p.onDNSUpdate ips now).backendList ↔ x ∈ ips := by
  have hkept : alookup ((ips.foldl (upsertStep p.port now) (p.backends, 0)).1.filter
      (fun q => decide (q.1 ∈ ips))) x =
      if x ∈ ips then
        some (refreshedOrFresh p.port now (alookup p.backends x) x)
      else none := by
    rw [← onDNSUpdate_backends, onDNSUpdate_lookup]
  unfold BackendPool.onDNSUpdate
  dsimp only
  split
  next hch =>
    dsimp only
    rw [List.mem_map]
    constructor
    · rintro ⟨q, hq, hqx⟩
      by_contra hx
      rw [if_neg hx] at hkept
      exact (alookup_eq_none_iff _ _ |>.mp hkept)
        (List.mem_map.mpr ⟨q, hq, hqx⟩)
    · intro hx
      rw [if_pos hx] at hkept
      have hmem := alookup_mem _ _ _ hkept
      exact ⟨_, hmem, rfl⟩
  next hch =>
    dsimp only
    have hc0 : (ips.foldl (upsertStep p.port now) (p.backends, 0)).2 +
        ((ips.foldl (upsertStep p.port now) (p.backends, 0)).1.filter
          (fun q => decide (q.1 ∉ ips))).length = 0 := by
      omega
    have hr2 : (ips.foldl (upsertStep p.port now) (p.backends, 0)).2 = 0 := by
      omega
    have hrem : ((ips.foldl (upsertStep p.port now) (p.backends, 0)).1.filter
        (fun q => decide (q.1 ∉ ips))).length = 0 := by
      omega
    have hpresent : ∀ ip ∈ ips, alookup p.backends ip ≠ none :=
      (upsertAll_count_eq_iff p.port now ips p.backends 0).mp hr2
    have hkeptall : ∀ q ∈ (ips.foldl (upsertStep p.port now) (p.backends, 0)).1,
        q.1 ∈ ips := by
      intro q hq
      have hnil := List.length_eq_zero.mp hrem
      have := List.filter_eq_nil_iff.mp hnil q hq
      simpa using this
    rw [hWF.1]
    constructor
    · intro hx
      have hnn : alookup p.backends x ≠ none :=
        fun hno => (alookup_eq_none_iff _ _ |>.mp hno) hx
      by_cases hin : x ∈ ips
      · exact hin
      · exfalso
        have hl := upsertAll_lookup p.port now ips p.backends 0 x
        rw [if_neg hin] at hl
        cases hv : alookup p.backends x with
        | none => exact hnn hv
        | some v =>
          rw [hv] at hl
          exact hin (hkeptall _ (alookup_mem _ _ _ hl))
    · intro hin
      by_contra hx
      exact hpresent x hin (alookup_eq_none_iff _ _ |>.mpr hx)

theorem refreshedOrFresh_ip (p : BackendPool) (now : Nat) (k : String)
    (hWF : p.WF) :
    (refreshedOrFresh p.port now (alookup p.backends k) k).ip = k := by
  rcases hWF with ⟨_, _, h3⟩
  cases h : alookup p.backends k with
  | none => rfl
  | some b0 =>
    have hip := (h3 _ (alookup_mem _ _ _ h)).1
    simpa [refreshedOrFresh] using hip

/-- Claim C2: after `OnDNSUpdate(S)` the snapshot's IP set equals the set of
`S`; an IP already present keeps its backend record with counters unchanged
and `last_seen` refreshed to now; a newly appearing IP gets a fresh backend
with weight 1, zero counters and `last_seen = now`; an IP absent from `S` is
removed; and when the membership did not change, the snapshot list is left
untouched. -/
theorem spec_c2_onDNSUpdate (p : BackendPool) (S : List String) (now : Nat)
    (hWF : p.WF) :
    (∀ x, (∃ b ∈ (p.onDNSUpdate S now).getBackends, b.ip = x) ↔ x ∈ S) ∧
    (∀ x b, x ∈ S → alookup p.backends x = some b →
      alookup (p.onDNSUpdate S now).backends x =
        some { b with lastSeen := now }) ∧
    (∀ x, x ∈ S → alookup p.backends x = none →
      alookup (p.onDNSUpdate S now).backends x =
        some (freshBackend x p.port now)) ∧
    (∀ x, x ∉ S → alookup (p.onDNSUpdate S now).backends x = none) ∧
    (((∀ x ∈ p.backends.map Prod.fst, x ∈ S) ∧
      (∀ x ∈ S, x ∈ p.backends.map Prod.fst)) →
      (p.onDNSUpdate S now).backendList = p.backendList) := by
  refine ⟨?_, ?_, ?_, ?_, ?_⟩
  · intro x
    constructor
    · rintro ⟨b, hbmem, hbip⟩
      unfold BackendPool.getBackends at hbmem
      rcases List.mem_filterMap.mp hbmem with ⟨k, hk, hlk⟩
      have hkips : k ∈ S := (onDNSUpdate_backendList_mem p S now hWF k).mp hk
      rw [onDNSUpdate_lookup, if_pos hkips] at hlk
      injection hlk with hlk
      have hipk : b.ip = k := by
        rw [← hlk]
        exact refreshedOrFresh_ip p now k hWF
      rw [← hbip, hipk]
      exact hkips
    · intro hx
      refine ⟨refreshedOrFresh p.port now (alookup p.backends x) x, ?_,
        refreshedOrFresh_ip p now x hWF⟩
      unfold BackendPool.getBackends
      refine List.mem_filterMap.mpr ⟨x,
        (onDNSUpdate_backendList_mem p S now hWF x).mpr hx, ?_⟩
      rw [onDNSUpdate_lookup, if_pos hx]
  · intro x b hxS hlook
    rw [onDNSUpdate_lookup, if_pos hxS, hlook]
    rfl
  · intro x hxS hlook
    rw [onDNSUpdate_lookup, if_pos hxS, hlook]
    rfl
  · intro x hxS
    rw [onDNSUpdate_lookup, if_neg hxS]
  · rintro ⟨hsub1, hsub2⟩
    have hr2 : (S.foldl (upsertStep p.port now) (p.backends, 0)).2 = 0 := by
      rw [upsertAll_count_eq_iff]
      intro ip hip hno
      exact (alookup_eq_none_iff _ _ |>.mp hno) (hsub2 ip hip)
    have hfil : ((S.foldl (upsertStep p.port now) (p.backends, 0)).1.filter
        (fun q => decide (q.1 ∉ S))) = [] := by
      rw [List.filter_eq_nil_iff]
      intro q hq
      simp only [decide_eq_true_eq, not_not]
      have hkey : q.1 ∈
          (S.foldl (upsertStep p.port now) (p.backends, 0)).1.map Prod.fst :=
        List.mem_map.mpr ⟨q, hq, rfl⟩
      have hnn : alookup (S.foldl (upsertStep p.port now) (p.backends, 0)).1
          q.1 ≠ none :=
        fun hno => (alookup_eq_none_iff _ _ |>.mp hno) hkey
      by_cases hin : q.1 ∈ S
      · exact hin
      · exfalso
        have hl := upsertAll_lookup p.port now S p.backends 0 q.1
        rw [if_neg hin] at hl
        rw [hl] at hnn
        have hkeyp : q.1 ∈ p.backends.map Prod.fst := by
          by_contra hc
          exact hnn (alookup_eq_none_iff _ _ |>.mpr hc)
        exact hin (hsub1 _ hkeyp)
    unfold BackendPool.onDNSUpdate
    dsimp only
    rw [hr2, hfil]
    simp

/-- Witness for C2: updating the concrete three-backend pool to the set
with 10.0.0.2 kept and 10.0.0.4 added refreshes, inserts fresh, and removes
as claimed, while an identical membership set keeps the snapshot list. -/
theorem spec_c2_witness :
    (∃ b ∈ (pool3.onDNSUpdate ["10.0.0.2", "10.0.0.4"] 7).getBackends,
      b.ip = "10.0.0.4") ∧
    alookup (pool3.onDNSUpdate ["10.0.0.2", "10.0.0.4"] 7).backends "10.0.0.2" =
      some { wb2 with lastSeen := 7 } ∧
    alookup (pool3.onDNSUpdate ["10.0.0.2", "10.0.0.4"] 7).backends "10.0.0.4" =
      some (freshBackend "10.0.0.4" pool3.port 7) ∧
    alookup (pool3.onDNSUpdate ["10.0.0.2", "10.0.0.4"] 7).backends "10.0.0.1" =
      none ∧
    (pool3.onDNSUpdate ["10.0.0.1", "10.0.0.2", "10.0.0.3"] 7).backendList =
      pool3.backendList := by
  refine ⟨?_, ?_, ?_, ?_, ?_⟩
  · exact ((spec_c2_onDNSUpdate pool3 ["10.0.0.2", "10.0.0.4"] 7 (by decide)).1
      "10.0.0.4").mpr (by decide)
  · exact (spec_c2_onDNSUpdate pool3 ["10.0.0.2", "10.0.0.4"] 7 (by decide)).2.1
      "10.0.0.2" wb2 (by decide) (by decide)
  · exact (spec_c2_onDNSUpdate pool3 ["10.0.0.2", "10.0.0.4"] 7 (by decide)).2.2.1
      "10.0.0.4" (by decide) (by decide)
  · exact (spec_c2_onDNSUpdate pool3 ["10.0.0.2", "10.0.0.4"] 7 (by decide)).2.2.2.1
      "10.0.0.1" (by decide)
  · exact (spec_c2_onDNSUpdate pool3 ["10.0.0.1", "10.0.0.2", "10.0.0.3"] 7
      (by decide)).2.2.2.2 ⟨by decide, by decide⟩

/-! ## Round-robin iteration -/

/-- `k` successive round-robin selections (no source IP, no affinity),
threading the pool so the shared cursor advances. -/
def rrSelectN : Nat → BackendPool → List Backend × BackendPool
  | 0, p => ([], p)
  | Nat.succ k, p =>
    match RoundRobinSelector.select p "" none 0 with
    | .ok (b, p2, _) =>
      let rest := rrSelectN k p2
      (b :: rest.1, rest.2)
    | .error _ => ([], p)

theorem getD_ne_of_ip_nodup (l : List Backend) (i j : Nat)
    (hnd : (l.map Backend.ip).Nodup) (hi : i < l.length) (hj : j < l.length)
    (hij : i ≠ j) : l.getD i dummyBackend ≠ l.getD j dummyBackend := by
  intro heq
  apply hij
  have hi' : i < (l.map Backend.ip).length := by simpa using hi
  have hj' : j < (l.map Backend.ip).length := by simpa using hj
  have hmap : (l.map Backend.ip)[i] = (l.map Backend.ip)[j] := by
    rw [List.getElem_map, List.getElem_map]
    rw [List.getD_eq_getElem l dummyBackend hi, List.getD_eq_getElem l dummyBackend hj] at heq
    rw [heq]
  exact (hnd.getElem_inj_iff).mp hmap

theorem succ_mod_ne (a n : Nat) (hn : 1 < n) : (a + 1) % n ≠ a % n := by
  have h1 : (1 : Nat) % n = 1 := Nat.mod_eq_of_lt hn
  rw [Nat.add_mod, h1]
  have hr : a % n < n := Nat.mod_lt _ (by omega)
  by_cases hc : a % n + 1 = n
  · rw [hc, Nat.mod_self]
    omega
  · rw [Nat.mod_eq_of_lt (by omega)]
    omega

theorem map_range_succ_shift (n : Nat) (f : Nat → Backend) :
    (List.range (n + 1)).map f = f 0 :: (List.range n).map (fun i => f (i + 1)) := by
  rw [List.range_succ_eq_map, List.map_cons, List.map_map]
  rfl

theorem rrSelectN_trace (k : Nat) :
    ∀ (p : BackendPool), p.getBackends ≠ [] →
    p.roundRobinIndex + k < 2 ^ 64 →
    (rrSelectN k p).1 =
      (List.range k).map (fun i =>
        p.getBackends.getD ((p.roundRobinIndex + 1 + i) % p.getBackends.length)
          dummyBackend) ∧
    (rrSelectN k p).2.getBackends = p.getBackends ∧
    (rrSelectN k p).2.roundRobinIndex = p.roundRobinIndex + k := by
  induction k with
  | zero =>
    intro p hne hlt
    simp [rrSelectN]
  | succ k ih =>
    intro p hne hlt
    have hmiss : selectorAffinityCheck p none 0 "" = none := rfl
    have hsel := rrSelect_miss p "" none 0 hmiss hne
    have hmod : (p.roundRobinIndex + 1) % 2 ^ 64 = p.roundRobinIndex + 1 :=
      Nat.mod_eq_of_lt (by omega)
    rw [hmod] at hsel
    simp only [rrSelectN, hsel]
    set p2 : BackendPool := { p with roundRobinIndex := p.roundRobinIndex + 1 }
      with hp2def
    have hp2b : p2.getBackends = p.getBackends := rfl
    have hp2i : p2.roundRobinIndex = p.roundRobinIndex + 1 := rfl
    have ihh := ih p2 (by rw [hp2b]; exact hne) (by rw [hp2i]; omega)
    refine ⟨?_, ?_, ?_⟩
    · rw [map_range_succ_shift]
      have htail : (rrSelectN k p2).1 =
          (List.range k).map (fun i =>
            p.getBackends.getD
              ((p.roundRobinIndex + 1 + (i + 1)) % p.getBackends.length)
              dummyBackend) := by
        rw [ihh.1]
        apply List.map_congr_left
        intro i _
        have harith : p2.roundRobinIndex + 1 + i =
            p.roundRobinIndex + 1 + (i + 1) := by
          rw [hp2i]
          omega
        rw [hp2b, harith]
      rw [htail]
    · rw [ihh.2.1, hp2b]
    · rw [ihh.2.2, hp2i]
      omega

/-- Claim C3: a round-robin `Select` missing affinity returns the snapshot
element at index `(c + 1) mod n` for prior cursor `c` (cursor fetch-add-1,
pool-global); with a stable snapshot and `n > 1` two consecutive selections
differ; and 6 consecutive selections over 3 backends hit each backend exactly
twice. -/
theorem spec_c3_round_robin (pool : BackendPool) (src : String)
    (aff : Option AffinityMap) (now : Nat) :
    (selectorAffinityCheck pool aff now src = none → pool.getBackends ≠ [] →
      pool.roundRobinIndex + 1 < 2 ^ 64 →
      RoundRobinSelector.select pool src aff now =
        Except.ok
          (pool.getBackends.getD
            ((pool.roundRobinIndex + 1) % pool.getBackends.length) dummyBackend,
           { pool with roundRobinIndex := pool.roundRobinIndex + 1 },
           recordAffinity aff now src
             (pool.getBackends.getD
               ((pool.roundRobinIndex + 1) % pool.getBackends.length)
               dummyBackend))) ∧
    (∀ b1 b2 p2 p3 a2 a3,
      (pool.getBackends.map Backend.ip).Nodup →
      1 < pool.getBackends.length →
      pool.roundRobinIndex + 2 < 2 ^ 64 →
      RoundRobinSelector.select pool "" none now = Except.ok (b1, p2, a2) →
      RoundRobinSelector.select p2 "" none now = Except.ok (b2, p3, a3) →
      b1 ≠ b2) ∧
    ((pool.getBackends.map Backend.ip).Nodup →
      pool.getBackends.length = 3 →
      pool.roundRobinIndex + 6 < 2 ^ 64 →
      ∀ j, j < 3 →
        (rrSelectN 6 pool).1.count (pool.getBackends.getD j dummyBackend) = 2) := by
  refine ⟨?_, ?_, ?_⟩
  · intro hmiss hne hlt
    have hsel := rrSelect_miss pool src aff now hmiss hne
    rwa [Nat.mod_eq_of_lt hlt] at hsel
  · intro b1 b2 p2 p3 a2 a3 hnd hlen hlt hs1 hs2
    have hne : pool.getBackends ≠ [] := by
      intro hnil
      rw [hnil] at hlen
      simp at hlen
    have h1 := rrSelect_miss pool "" none now rfl hne
    rw [Nat.mod_eq_of_lt (by omega : pool.roundRobinIndex + 1 < 2 ^ 64)] at h1
    rw [h1] at hs1
    simp only [Except.ok.injEq, Prod.mk.injEq] at hs1
    obtain ⟨hb1, hp2, -⟩ := hs1
    rw [← hp2] at hs2
    have hli : ({ pool with roundRobinIndex := pool.roundRobinIndex + 1 } :
        BackendPool).roundRobinIndex = pool.roundRobinIndex + 1 := rfl
    have hlb : ({ pool with roundRobinIndex := pool.roundRobinIndex + 1 } :
        BackendPool).getBackends = pool.getBackends := rfl
    have h2 := rrSelect_miss
      { pool with roundRobinIndex := pool.roundRobinIndex + 1 } "" none now rfl
      (by rw [hlb]; exact hne)
    rw [hli, hlb,
      Nat.mod_eq_of_lt (by omega : pool.roundRobinIndex + 1 + 1 < 2 ^ 64)] at h2
    rw [h2] at hs2
    simp only [Except.ok.injEq, Prod.mk.injEq] at hs2
    obtain ⟨hb2, -, -⟩ := hs2
    rw [← hb1, ← hb2]
    have hnz : 0 < pool.getBackends.length := by omega
    apply getD_ne_of_ip_nodup pool.getBackends _ _ hnd
      (Nat.mod_lt _ hnz) (Nat.mod_lt _ hnz)
    exact Ne.symm (succ_mod_ne (pool.roundRobinIndex + 1)
      pool.getBackends.length hlen)
  · intro hnd hlen hlt j hj
    have hne : pool.getBackends ≠ [] := by
      intro hnil
      rw [hnil] at hlen
      simp at hlen
    obtain ⟨htr, _, _⟩ := rrSelectN_trace 6 pool hne hlt
    rw [htr, hlen]
    have hrange : List.range 6 = [0, 1, 2, 3, 4, 5] := rfl
    rw [hrange]
    simp only [List.map_cons, List.map_nil]
    have hpos : ∀ i : Nat, (pool.roundRobinIndex + 1 + i) % 3 =
        ((pool.roundRobinIndex + 1) % 3 + i) % 3 :=
      fun i => (Nat.mod_add_mod _ _ _).symm
    rw [hpos 0, hpos 1, hpos 2, hpos 3, hpos 4, hpos 5]
    have h01 := getD_ne_of_ip_nodup pool.getBackends 0 1 hnd
      (by omega) (by omega) (by omega)
    have h02 := getD_ne_of_ip_nodup pool.getBackends 0 2 hnd
      (by omega) (by omega) (by omega)
    have h12 := getD_ne_of_ip_nodup pool.getBackends 1 2 hnd
      (by omega) (by omega) (by omega)
    have hr : (pool.roundRobinIndex + 1) % 3 < 3 := Nat.mod_lt _ (by omega)
    simp only [List.getD_eq_getElem?_getD] at h01 h02 h12 ⊢
    generalize hg : (pool.roundRobinIndex + 1) % 3 = r at *
    interval_cases r <;> interval_cases j <;>
      simp [List.count_cons, h01, h02, h12,
        Ne.symm h01, Ne.symm h02, Ne.symm h12]

/-- Witness for C3 at the concrete pool with cursor 0: the call returns the
snapshot element at index `(0 + 1) mod 3`, two consecutive selections land on
distinct backends, and backend 0 is hit exactly twice in 6 rounds. -/
theorem spec_c3_witness :
    RoundRobinSelector.select pool3 "" none 0 =
      Except.ok
        (pool3.getBackends.getD
          ((pool3.roundRobinIndex + 1) % pool3.getBackends.length) dummyBackend,
         { pool3 with roundRobinIndex := pool3.roundRobinIndex + 1 },
         recordAffinity none 0 ""
           (pool3.getBackends.getD
             ((pool3.roundRobinIndex + 1) % pool3.getBackends.length)
             dummyBackend)) ∧
    wb2 ≠ wb3 ∧
    (rrSelectN 6 pool3).1.count (pool3.getBackends.getD 0 dummyBackend) = 2 := by
  refine ⟨?_, ?_, ?_⟩
  · exact (spec_c3_round_robin pool3 "" none 0).1 rfl (by decide) (by decide)
  · exact (spec_c3_round_robin pool3 "" none 0).2.1 wb2 wb3 pool3rr
      { pool3 with roundRobinIndex := 2 } none none (by decide) (by decide)
      (by decide) rfl rfl
  · exact (spec_c3_round_robin pool3 "" none 0).2.2 (by decide) (by decide)
      (by decide) 0 (by decide)

/-! ## Weighted-random selection -/

/-- Cumulative weight of the first `i` entries, as the scan accumulates it. -/
def cumWeight (ws : List Int) (i : Nat) : Int :=
  totalWeightOf (ws.take i)

theorem foldl_add_init (l : List Int) :
    ∀ a : Int, l.foldl (· + ·) a = a + l.foldl (· + ·) 0 := by
  induction l with
  | nil =>
    intro a
    simp
  | cons w ws ih =>
    intro a
    rw [List.foldl_cons, List.foldl_cons, ih (a + w), ih (0 + w)]
    ring

theorem totalWeightOf_cons (w : Int) (ws : List Int) :
    totalWeightOf (w :: ws) = w + totalWeightOf ws := by
  unfold totalWeightOf
  rw [List.foldl_cons, foldl_add_init]
  omega

theorem cumWeight_zero (ws : List Int) : cumWeight ws 0 = 0 := rfl

theorem cumWeight_succ_cons (w : Int) (ws : List Int) (i : Nat) :
    cumWeight (w :: ws) (i + 1) = w + cumWeight ws i := by
  unfold cumWeight
  rw [List.take_succ_cons, totalWeightOf_cons]

theorem cumWeight_nonneg (ws : List Int) :
    ∀ (i : Nat), (∀ w ∈ ws, 0 ≤ w) → 0 ≤ cumWeight ws i := by
  induction ws with
  | nil =>
    intro i _
    simp [cumWeight, totalWeightOf]
  | cons w ws ih =>
    intro i hw
    cases i with
    | zero => simp [cumWeight_zero]
    | succ i' =>
      rw [cumWeight_succ_cons]
      have h1 : 0 ≤ w := hw w (List.mem_cons_self _ _)
      have h2 : 0 ≤ cumWeight ws i' := ih i' (fun x hx => hw x (List.mem_cons_of_mem _ hx))
      omega

theorem pickIdx_spec (ws : List Int) : ∀ (r : Int) (i : Nat),
    (∀ w ∈ ws, 0 ≤ w) → 0 ≤ r →
    cumWeight ws i ≤ r → r < cumWeight ws (i + 1) →
    pickIdx ws r = some i := by
  induction ws with
  | nil =>
    intro r i hw hr h1 h2
    exfalso
    have hc : cumWeight [] (i + 1) = 0 := by
      simp [cumWeight, totalWeightOf]
    omega
  | cons w ws ih =>
    intro r i hw hr h1 h2
    cases i with
    | zero =>
      rw [cumWeight_succ_cons, cumWeight_zero] at h2
      unfold pickIdx
      rw [if_pos (by omega)]
    | succ i' =>
      rw [cumWeight_succ_cons] at h1 h2
      have hcnn : 0 ≤ cumWeight ws i' :=
        cumWeight_nonneg ws i' (fun x hx => hw x (List.mem_cons_of_mem _ hx))
      unfold pickIdx
      rw [if_neg (by omega)]
      rw [ih (r - w) i' (fun x hx => hw x (List.mem_cons_of_mem _ hx))
        (by omega) (by omega) (by omega)]
      rfl

theorem wrScanPick_eq (backends : List Backend) (ws : List Int)
    (rng : Nat → Nat) (i : Nat) (hw : ∀ w ∈ ws, 0 ≤ w)
    (h1 : cumWeight ws i ≤ ((rng (totalWeightOf ws).toNat : Nat) : Int))
    (h2 : ((rng (totalWeightOf ws).toNat : Nat) : Int) < cumWeight ws (i + 1)) :
    wrScanPick backends ws rng = backends.getD i dummyBackend := by
  unfold wrScanPick
  dsimp only
  rw [pickIdx_spec ws _ i hw (Int.natCast_nonneg _) h1 h2]

theorem maxfold_ge (f : Backend → Int) :
    ∀ (l : List Backend) (a : Int),
    a ≤ l.foldl (fun m b => if f b > m then f b else m) a ∧
    ∀ b ∈ l, f b ≤ l.foldl (fun m b => if f b > m then f b else m) a := by
  intro l
  induction l with
  | nil =>
    intro a
    exact ⟨le_refl a, by simp⟩
  | cons b l ih =>
    intro a
    rw [List.foldl_cons]
    have hstep : (a ≤ if f b > a then f b else a) ∧
        (f b ≤ if f b > a then f b else a) := by
      by_cases hfb : f b > a
      · rw [if_pos hfb]
        omega
      · rw [if_neg hfb]
        omega
    obtain ⟨hinit, hmem⟩ := ih (if f b > a then f b else a)
    refine ⟨le_trans hstep.1 hinit, ?_⟩
    intro b0 hb0
    rcases List.mem_cons.mp hb0 with h | h
    · subst h
      exact le_trans hstep.2 hinit
    · exact hmem b0 h

theorem maxfold_attained (f : Backend → Int) :
    ∀ (l : List Backend) (a : Int),
    l.foldl (fun m b => if f b > m then f b else m) a = a ∨
    ∃ b ∈ l, l.foldl (fun m b => if f b > m then f b else m) a = f b := by
  intro l
  induction l with
  | nil =>
    intro a
    exact Or.inl rfl
  | cons b l ih =>
    intro a
    rw [List.foldl_cons]
    by_cases hfb : f b > a
    · rw [if_pos hfb]
      rcases ih (f b) with h | ⟨b0, hb0, hres⟩
      · exact Or.inr ⟨b, List.mem_cons_self _ _, h⟩
      · exact Or.inr ⟨b0, List.mem_cons_of_mem _ hb0, hres⟩
    · rw [if_neg hfb]
      rcases ih a with h | ⟨b0, hb0, hres⟩
      · exact Or.inl h
      · exact Or.inr ⟨b0, List.mem_cons_of_mem _ hb0, hres⟩

theorem maxConnsOf_ge (backends : List Backend) :
    ∀ b ∈ backends, b.activeConns ≤ maxConnsOf backends :=
  (maxfold_ge (fun b => b.activeConns) backends 0).2

theorem implicitWeightsOf_nonneg (backends : List Backend)
    (hw : ∀ b ∈ backends, 0 ≤ b.weight) :
    ∀ w ∈ implicitWeightsOf backends, 0 ≤ w := by
  intro w hwmem
  rcases List.mem_map.mp hwmem with ⟨b, hb, rfl⟩
  have h1 : b.activeConns ≤ maxConnsOf backends := maxConnsOf_ge backends b hb
  have h2 : 0 ≤ maxConnsOf backends - b.activeConns + 1 := by omega
  exact mul_nonneg h2 (hw b hb)

theorem explicitWeightsOf_nonneg (backends : List Backend)
    (hw : ∀ b ∈ backends, 0 ≤ b.weight) :
    ∀ w ∈ explicitWeightsOf backends, 0 ≤ w := by
  intro w hwmem
  rcases List.mem_map.mp hwmem with ⟨b, hb, rfl⟩
  exact hw b hb

/-- Claim C5: the weighted-random selector in implicit mode assigns each
backend the weight `(M − active_conns + 1) × weight` with `M` the maximum
active connection count over the snapshot, and picks by a linear scan of the
drawn value over the cumulative weights; explicit mode scans the `weight`
fields; and a zero explicit total falls back to uniform random. -/
theorem spec_c5_weighted_random (rng : Nat → Nat) (pool : BackendPool)
    (src : String) (aff : Option AffinityMap) (now : Nat)
    (hmiss : selectorAffinityCheck pool aff now src = none)
    (hne : pool.getBackends ≠ []) :
    ((∀ b ∈ pool.getBackends, 0 ≤ b.activeConns) →
      (∀ b ∈ pool.getBackends, b.activeConns ≤ maxConnsOf pool.getBackends) ∧
      (∃ b ∈ pool.getBackends, maxConnsOf pool.getBackends = b.activeConns) ∧
      implicitWeightsOf pool.getBackends =
        pool.getBackends.map (fun b =>
          (maxConnsOf pool.getBackends - b.activeConns + 1) * b.weight)) ∧
    (∀ i, (∀ b ∈ pool.getBackends, 0 ≤ b.weight) →
      totalWeightOf (implicitWeightsOf pool.getBackends) ≠ 0 →
      cumWeight (implicitWeightsOf pool.getBackends) i ≤
        ((rng (totalWeightOf (implicitWeightsOf pool.getBackends)).toNat : Nat) : Int) →
      ((rng (totalWeightOf (implicitWeightsOf pool.getBackends)).toNat : Nat) : Int) <
        cumWeight (implicitWeightsOf pool.getBackends) (i + 1) →
      WeightedRandomSelector.select false rng pool src aff now =
        Except.ok (pool.getBackends.getD i dummyBackend,
          recordAffinity aff now src (pool.getBackends.getD i dummyBackend))) ∧
    (∀ i, (∀ b ∈ pool.getBackends, 0 ≤ b.weight) →
      totalWeightOf (explicitWeightsOf pool.getBackends) ≠ 0 →
      cumWeight (explicitWeightsOf pool.getBackends) i ≤
        ((rng (totalWeightOf (explicitWeightsOf pool.getBackends)).toNat : Nat) : Int) →
      ((rng (totalWeightOf (explicitWeightsOf pool.getBackends)).toNat : Nat) : Int) <
        cumWeight (explicitWeightsOf pool.getBackends) (i + 1) →
      WeightedRandomSelector.select true rng pool src aff now =
        Except.ok (pool.getBackends.getD i dummyBackend,
          recordAffinity aff now src (pool.getBackends.getD i dummyBackend))) ∧
    (totalWeightOf (explicitWeightsOf pool.getBackends) = 0 →
      WeightedRandomSelector.select true rng pool src aff now =
        Except.ok (pool.getBackends.getD (rng pool.getBackends.length) dummyBackend,
          recordAffinity aff now src
            (pool.getBackends.getD (rng pool.getBackends.length) dummyBackend))) := by
  refine ⟨?_, ?_, ?_, ?_⟩
  · intro h0
    refine ⟨maxConnsOf_ge pool.getBackends, ?_, rfl⟩
    rcases maxfold_attained (fun b => b.activeConns) pool.getBackends 0 with h | h
    · obtain ⟨b0, hmem⟩ := List.exists_mem_of_ne_nil pool.getBackends hne
      have hub := maxConnsOf_ge pool.getBackends b0 hmem
      have hnn := h0 b0 hmem
      refine ⟨b0, hmem, ?_⟩
      unfold maxConnsOf at hub ⊢
      omega
    · rcases h with ⟨b, hb, hres⟩
      exact ⟨b, hb, hres⟩
  · intro i hw htot h1 h2
    have hwn := implicitWeightsOf_nonneg pool.getBackends hw
    have hsel := WeightedrandomSelect_miss_pos false rng pool src aff
      now hmiss hne (by simpa using htot)
    rw [hsel]
    simp only [Bool.false_eq_true, if_false]
    rw [wrScanPick_eq pool.getBackends (implicitWeightsOf pool.getBackends)
      rng i hwn h1 h2]
  · intro i hw htot h1 h2
    have hwn := explicitWeightsOf_nonneg pool.getBackends hw
    have hsel := WeightedrandomSelect_miss_pos true rng pool src aff
      now hmiss hne (by simpa using htot)
    rw [hsel]
    simp only [if_true]
    rw [wrScanPick_eq pool.getBackends (explicitWeightsOf pool.getBackends)
      rng i hwn h1 h2]
  · intro htot
    exact WeightedrandomSelect_miss_zero true rng pool src aff now
      hmiss hne (by simpa using htot)

/-- A concrete backend with explicit weight zero. -/
def wbz : Backend :=
  { ip := "10.0.0.9", port := "9000", weight := 0, activeConns := 0,
    totalConns := 0, totalBytes := 0, lastSeen := 0 }

/-- A concrete pool whose only backend has weight zero. -/
def poolW0 : BackendPool :=
  { host := "svc", port := "9000", backends := [("10.0.0.9", wbz)],
    backendList := ["10.0.0.9"], roundRobinIndex := 0 }

/-- Witness for C5 at concrete pools: implicit and explicit scans land on the
cumulative-weight interval of the drawn value, a zero explicit total falls
back to uniform random, and the implicit `M` is attained. -/
theorem spec_c5_witness :
    WeightedRandomSelector.select false rng0 pool3 "" none 0 =
      Except.ok (pool3.getBackends.getD 0 dummyBackend,
        recordAffinity none 0 "" (pool3.getBackends.getD 0 dummyBackend)) ∧
    WeightedRandomSelector.select true rng0 pool3 "" none 0 =
      Except.ok (pool3.getBackends.getD 0 dummyBackend,
        recordAffinity none 0 "" (pool3.getBackends.getD 0 dummyBackend)) ∧
    WeightedRandomSelector.select true rng0 poolW0 "" none 0 =
      Except.ok
        (poolW0.getBackends.getD (rng0 poolW0.getBackends.length) dummyBackend,
         recordAffinity none 0 ""
           (poolW0.getBackends.getD (rng0 poolW0.getBackends.length)
             dummyBackend)) ∧
    (∃ b ∈ pool3.getBackends, maxConnsOf pool3.getBackends = b.activeConns) := by
  refine ⟨?_, ?_, ?_, ?_⟩
  · exact (spec_c5_weighted_random rng0 pool3 "" none 0 rfl (by decide)).2.1 0
      (by decide) (by decide) (by decide) (by decide)
  · exact (spec_c5_weighted_random rng0 pool3 "" none 0 rfl (by decide)).2.2.1 0
      (by decide) (by decide) (by decide) (by decide)
  · exact (spec_c5_weighted_random rng0 poolW0 "" none 0 rfl (by decide)).2.2.2
      (by decide)
  · exact ((spec_c5_weighted_random rng0 pool3 "" none 0 rfl (by decide)).1
      (by decide)).2.1

/-! ## DNS change detection and fan-out -/

theorem updateIPs_false (r : DNSResolver) (newIPs : List String)
    (h : (r.updateIPs newIPs).1 = false) : r.updateIPs newIPs = (false, r) := by
  unfold DNSResolver.updateIPs at h ⊢
  by_cases h1 : r.ips.length ≠ newIPs.length
  · rw [if_pos h1] at h
    cases h
  · rw [if_neg h1] at h ⊢
    by_cases h2 : newIPs.any (fun ip => decide (ip ∉ r.ips)) = true
    · rw [if_pos h2] at h
      cases h
    · rw [if_neg h2]

theorem updateIPs_true (r : DNSResolver) (newIPs : List String)
    (h : (r.updateIPs newIPs).1 = true) :
    r.updateIPs newIPs = (true, { r with ips := newIPs }) := by
  unfold DNSResolver.updateIPs at h ⊢
  by_cases h1 : r.ips.length ≠ newIPs.length
  · rw [if_pos h1]
  · rw [if_neg h1] at h ⊢
    by_cases h2 : newIPs.any (fun ip => decide (ip ∉ r.ips)) = true
    · rw [if_pos h2]
    · rw [if_neg h2] at h
      cases h

theorem updateIPs_changed_iff (r : DNSResolver) (newIPs : List String)
    (hold : r.ips.Nodup) (hnew : newIPs.Nodup) :
    (r.updateIPs newIPs).1 = true ↔ ¬(∀ x, x ∈ newIPs ↔ x ∈ r.ips) := by
  unfold DNSResolver.updateIPs
  by_cases h1 : r.ips.length ≠ newIPs.length
  · rw [if_pos h1]
    simp only [true_iff]
    intro hall
    apply h1
    have hfin : newIPs.toFinset = r.ips.toFinset := by
      ext x
      simp only [List.mem_toFinset]
      exact hall x
    have hcard : newIPs.toFinset.card = r.ips.toFinset.card := by rw [hfin]
    rw [List.toFinset_card_of_nodup hnew, List.toFinset_card_of_nodup hold]
      at hcard
    omega
  · rw [if_neg h1]
    by_cases h2 : newIPs.any (fun ip => decide (ip ∉ r.ips)) = true
    · rw [if_pos h2]
      simp only [true_iff]
      simp only [List.any_eq_true, decide_eq_true_eq] at h2
      rcases h2 with ⟨ip, hipnew, hipold⟩
      intro hall
      exact hipold ((hall ip).mp hipnew)
    · rw [if_neg h2]
      simp only [List.any_eq_true, decide_eq_true_eq, not_exists, not_and,
        not_not] at h2
      constructor
      · intro hfalse
        cases hfalse
      · intro hnall
        exfalso
        apply hnall
        have hsub : newIPs.toFinset ⊆ r.ips.toFinset := by
          intro x hx
          rw [List.mem_toFinset] at hx ⊢
          exact h2 x hx
        have hcard : r.ips.toFinset.card ≤ newIPs.toFinset.card := by
          rw [List.toFinset_card_of_nodup hnew, List.toFinset_card_of_nodup hold]
          omega
        have heq : newIPs.toFinset = r.ips.toFinset :=
          Finset.eq_of_subset_of_card_le hsub hcard
        intro x
        constructor
        · intro hx
          exact h2 x hx
        · intro hx
          have : x ∈ r.ips.toFinset := List.mem_toFinset.mpr hx
          rw [← heq] at this
          exact List.mem_toFinset.mp this

/-- Claim C8: after a successful resolution, subscribers are notified exactly
when the resolved IP set differs from the stored one; no notification leaves
the resolver and its subscribers untouched; a notification stores the new
list and pushes the full new list to every subscriber; and every transition
between non-empty and empty is published. -/
theorem spec_c8_dns_notify (r : DNSResolver) (newIPs : List String) (now : Nat)
    (hold : r.ips.Nodup) (hnew : newIPs.Nodup) :
    ((r.probeRound (some newIPs) now).2 = some newIPs ↔
      ¬(∀ x, x ∈ newIPs ↔ x ∈ r.ips)) ∧
    ((r.probeRound (some newIPs) now).2 = none →
      (r.probeRound (some newIPs) now).1 = r) ∧
    ((r.probeRound (some newIPs) now).2 = some newIPs →
      (r.probeRound (some newIPs) now).1.ips = newIPs ∧
      (r.probeRound (some newIPs) now).1.subscribers =
        r.subscribers.map (fun p => p.onDNSUpdate newIPs now)) ∧
    ((r.ips = [] ∧ newIPs ≠ []) ∨ (r.ips ≠ [] ∧ newIPs = []) →
      (r.probeRound (some newIPs) now).2 = some newIPs) := by
  have hiff := updateIPs_changed_iff r newIPs hold hnew
  by_cases hch : (r.updateIPs newIPs).1 = true
  · have hupd := updateIPs_true r newIPs hch
    have hpr : r.probeRound (some newIPs) now =
        (({ r with ips := newIPs } : DNSResolver).notifySubscribers newIPs now,
          some newIPs) := by
      unfold DNSResolver.probeRound
      dsimp only
      rw [hupd]
      rfl
    refine ⟨?_, ?_, ?_, ?_⟩
    · rw [hpr]
      simp only [true_iff]
      exact hiff.mp hch
    · rw [hpr]
      intro hnone
      cases hnone
    · rw [hpr]
      intro _
      exact ⟨rfl, rfl⟩
    · intro _
      rw [hpr]
  · have hfalse : (r.updateIPs newIPs).1 = false := by
      cases hb : (r.updateIPs newIPs).1
      · rfl
      · exact absurd hb hch
    have hupd := updateIPs_false r newIPs hfalse
    have hpr : r.probeRound (some newIPs) now = (r, none) := by
      unfold DNSResolver.probeRound
      dsimp only
      rw [hupd]
      rfl
    have hsets : ∀ x, x ∈ newIPs ↔ x ∈ r.ips := by
      by_contra hc
      exact hch (hiff.mpr hc)
    refine ⟨?_, ?_, ?_, ?_⟩
    · rw [hpr]
      constructor
      · intro hnone
        simp at hnone
      · intro hc
        exact (hc hsets).elim
    · rw [hpr]
      intro _
      rfl
    · rw [hpr]
      intro hsome
      cases hsome
    · intro hcase
      exfalso
      rcases hcase with ⟨hnil, hne⟩ | ⟨hne, hnil⟩
      · obtain ⟨x, hx⟩ := List.exists_mem_of_ne_nil newIPs hne
        have := (hsets x).mp hx
        rw [hnil] at this
        cases this
      · obtain ⟨x, hx⟩ := List.exists_mem_of_ne_nil r.ips hne
        have := (hsets x).mpr hx
        rw [hnil] at this
        cases this

/-- A concrete resolver with one stored IP and one subscriber. -/
def res1 : DNSResolver :=
  { host := "svc", ips := ["10.0.0.1"], subscribers := [poolEmpty],
    probePeriod := 2 }

/-- A concrete resolver with no stored IPs. -/
def resEmpty : DNSResolver :=
  { host := "svc", ips := [], subscribers := [], probePeriod := 2 }

/-- Witness for C8: a grown IP set is published with the full list pushed to
the subscriber, an identical set is not published and leaves the resolver
unchanged, and an empty-to-non-empty transition is published. -/
theorem spec_c8_witness :
    (res1.probeRound (some ["10.0.0.1", "10.0.0.2"]) 5).2 =
      some ["10.0.0.1", "10.0.0.2"] ∧
    (res1.probeRound (some ["10.0.0.1", "10.0.0.2"]) 5).1.ips =
      ["10.0.0.1", "10.0.0.2"] ∧
    (res1.probeRound (some ["10.0.0.1", "10.0.0.2"]) 5).1.subscribers =
      res1.subscribers.map (fun p => p.onDNSUpdate ["10.0.0.1", "10.0.0.2"] 5) ∧
    (res1.probeRound (some ["10.0.0.1"]) 5).2 = none ∧
    (res1.probeRound (some ["10.0.0.1"]) 5).1 = res1 ∧
    (resEmpty.probeRound (some ["10.0.0.3"]) 5).2 = some ["10.0.0.3"] := by
  have hmain := spec_c8_dns_notify res1 ["10.0.0.1", "10.0.0.2"] 5 (by decide)
    (by decide)
  have hsame := spec_c8_dns_notify res1 ["10.0.0.1"] 5 (by decide) (by decide)
  have hempty := spec_c8_dns_notify resEmpty ["10.0.0.3"] 5 (by decide)
    (by decide)
  have hpub : (res1.probeRound (some ["10.0.0.1", "10.0.0.2"]) 5).2 =
      some ["10.0.0.1", "10.0.0.2"] := by
    apply hmain.1.mpr
    intro hall
    exact absurd ((hall "10.0.0.2").mp (by decide)) (by decide)
  refine ⟨hpub, (hmain.2.2.1 hpub).1, (hmain.2.2.1 hpub).2, rfl, ?_, ?_⟩
  · exact hsame.2.1 rfl
  · exact hempty.2.2.2 (Or.inl ⟨rfl, by decide⟩)

end DockerLB
